import Mathlib

/-!
Shallow embedding of the post query logic of `src/components/blog/BlogList.tsx`
and its unnamed near-duplicate copy.  JS strings are modelled as Lean `String`,
timestamps (`new Date(d).getTime()`) as `Int`, the optional `tags` field as
`Option (List String)`, and `Array.prototype.sort` (stable since ES2019) as
`List.mergeSort`.  `localeCompare` is modelled as code-point comparison
returning -1/0/1.
-/

/-- The `data` field of a `Post` record (BlogList.tsx lines 7-13).
`pubDate` holds the timestamp; `heroImage` is an opaque pass-through payload. -/
structure PostData where
  title : String
  description : String
  pubDate : Int
  heroImage : Option String
  tags : Option (List String)
  deriving DecidableEq, Repr

/-- A `Post` record (BlogList.tsx lines 4-15). -/
structure Post where
  id : String
  slug : String
  data : PostData
  readingTime : String
  deriving DecidableEq, Repr

/-- The three `useState` hooks (BlogList.tsx lines 22-24).  `sortOrder` is kept
as a raw string because the `as any` cast on the select handler (line 112)
admits arbitrary strings at runtime. -/
structure QueryState where
  search : String
  selectedTags : List String
  sortOrder : String
  deriving DecidableEq, Repr

/-- Initial state: `search = ""`, `selectedTags = []`, `sortOrder = "newest"`. -/
def initState : QueryState := { search := "", selectedTags := [], sortOrder := "newest" }

/-- JS `String.prototype.toLowerCase`, modelled as simple per-character
lowercase folding. -/
def jsToLower (s : String) : String := ⟨s.data.map Char.toLower⟩

/-- Substring test on character lists: true iff `needle` occurs contiguously
inside the second argument. -/
def containsSub (needle : List Char) : List Char → Bool
  | [] => needle.isEmpty
  | c :: rest => needle.isPrefixOf (c :: rest) || containsSub needle rest

/-- JS `hay.includes(needle)` for strings. -/
def jsIncludes (hay needle : String) : Bool := containsSub needle.data hay.data

/-- The search predicate (BlogList.tsx lines 37-39):
`post.data.title.toLowerCase().includes(search.toLowerCase()) ||
 post.data.description.toLowerCase().includes(search.toLowerCase())`. -/
def matchesSearch (search : String) (post : Post) : Bool :=
  jsIncludes (jsToLower post.data.title) (jsToLower search) ||
  jsIncludes (jsToLower post.data.description) (jsToLower search)

/-- `post.data.tags?.includes(tag)`: optional chaining on an absent field
yields `undefined`, which is falsy. -/
def tagsInclude (tags : Option (List String)) (tag : String) : Bool :=
  match tags with
  | none => false
  | some ts => ts.contains tag

/-- The tag filter predicate of BlogList.tsx (lines 40-42), ALL-match:
`selectedTags.length === 0 || selectedTags.every(tag => post.data.tags?.includes(tag))`. -/
def matchesTags (selectedTags : List String) (post : Post) : Bool :=
  selectedTags.length == 0 || selectedTags.all (fun tag => tagsInclude post.data.tags tag)

/-- The tag filter predicate of the unnamed copy (part_000 lines 42-44), ANY-match:
`selectedTags.length === 0 || selectedTags.some(tag => post.data.tags?.includes(tag))`. -/
def matchesTagsAny (selectedTags : List String) (post : Post) : Bool :=
  selectedTags.length == 0 || selectedTags.any (fun tag => tagsInclude post.data.tags tag)

/-- `a.localeCompare(b)` modelled as code-point comparison with result sign
-1/0/1. -/
def strCompare (a b : String) : Int := if a < b then -1 else if b < a then 1 else 0

/-- The sort comparator (BlogList.tsx lines 45-55, identical in part_000 lines
47-63).  Any `sortOrder` other than `"newest"`, `"oldest"`, `"a-z"` falls into
the final `else` branch. -/
def sortComparator (sortOrder : String) (a b : Post) : Int :=
  if sortOrder = "newest" then b.data.pubDate - a.data.pubDate
  else if sortOrder = "oldest" then a.data.pubDate - b.data.pubDate
  else if sortOrder = "a-z" then strCompare a.data.title b.data.title
  else strCompare b.data.title a.data.title

/-- `a` may stay before `b` under the comparator: `comparator(a,b) <= 0`. -/
def sortLe (sortOrder : String) (a b : Post) : Bool :=
  decide (sortComparator sortOrder a b ≤ 0)

/-- `filteredPosts` of BlogList.tsx (lines 34-56): filter by the combined
predicate, then stable-sort by the comparator. -/
def filteredPosts (posts : List Post) (search : String) (selectedTags : List String)
    (sortOrder : String) : List Post :=
  (posts.filter fun post => matchesSearch search post && matchesTags selectedTags post).mergeSort
    (sortLe sortOrder)

/-- `filteredPosts` of the unnamed copy (part_000 lines 36-64), which uses the
ANY-match tag predicate. -/
def filteredPostsAny (posts : List Post) (search : String) (selectedTags : List String)
    (sortOrder : String) : List Post :=
  (posts.filter fun post => matchesSearch search post && matchesTagsAny selectedTags post).mergeSort
    (sortLe sortOrder)

/-- Insertion into a JS `Set` materialised as an insertion-ordered
duplicate-free list. -/
def jsSetAdd (s : List String) (x : String) : List String :=
  if s.contains x then s else s ++ [x]

/-- `allTags` (BlogList.tsx lines 26-32): collect every tag of every post into
a `Set`, then `Array.from(tags).sort()` (default string sort). -/
def allTags (posts : List Post) : List String :=
  ((posts.foldl (fun tags post => (post.data.tags.getD []).foldl jsSetAdd tags) []).mergeSort
    fun a b => decide (a ≤ b))

/-- `toggleTag` (BlogList.tsx lines 58-62):
`prev.includes(tag) ? prev.filter(t => t !== tag) : [...prev, tag]`. -/
def toggleTag (tag : String) (prev : List String) : List String :=
  if prev.contains tag then prev.filter (fun t => t != tag) else prev ++ [tag]

/-- `setSearch` state update. -/
def setSearch (text : String) (q : QueryState) : QueryState := { q with search := text }

/-- `setSortOrder` state update (BlogList.tsx line 112): the raw select value
is stored unvalidated thanks to the `as any` cast. -/
def setSortOrder (order : String) (q : QueryState) : QueryState := { q with sortOrder := order }

/-- `toggleTag` lifted to the query state. -/
def toggleTagState (tag : String) (q : QueryState) : QueryState :=
  { q with selectedTags := toggleTag tag q.selectedTags }

/-- The derived result view for the current query state. -/
def getResults (posts : List Post) (q : QueryState) : List Post :=
  filteredPosts posts q.search q.selectedTags q.sortOrder

/-- Concrete sample posts used to witness the theorems. -/
def postA : Post :=
  { id := "a", slug := "a",
    data := { title := "Alpha", description := "First post", pubDate := 100,
              heroImage := none, tags := some ["x"] },
    readingTime := "3 min" }

def postB : Post :=
  { id := "b", slug := "b",
    data := { title := "Beta", description := "Second post", pubDate := 100,
              heroImage := none, tags := some ["y"] },
    readingTime := "4 min" }

def postNoTags : Post :=
  { id := "c", slug := "c",
    data := { title := "Gamma", description := "Third post", pubDate := 50,
              heroImage := none, tags := none },
    readingTime := "5 min" }

/-! Helper lemmas. -/

/-- An empty needle is a substring of everything. -/
theorem containsSub_nil (hay : List Char) : containsSub [] hay = true := by
  cases hay <;> rfl

/-- `containsSub` decides the contiguous-substring relation. -/
theorem containsSub_iff (n : List Char) (hay : List Char) :
    containsSub n hay = true ↔ n <:+: hay := by
  induction hay with
  | nil =>
    simp [containsSub, List.isEmpty_iff]
  | cons c rest ih =>
    simp [containsSub, ih, List.infix_cons_iff]

/-- Sign characterisation of the modelled `localeCompare`. -/
theorem strCompare_nonpos (a b : String) : strCompare a b ≤ 0 ↔ a ≤ b := by
  unfold strCompare
  split_ifs with h1 h2
  · simp [le_of_lt h1]
  · constructor
    · intro h; omega
    · intro h; exact absurd h (not_le.mpr h2)
  · have hab : a = b := le_antisymm (not_lt.mp h2) (not_lt.mp h1)
    simp [hab]

/-- The comparator relation is transitive for every sort order. -/
theorem sortLe_trans (ord : String) (a b c : Post) (h1 : sortLe ord a b) (h2 : sortLe ord b c) :
    sortLe ord a c := by
  simp only [sortLe, decide_eq_true_eq] at h1 h2 ⊢
  unfold sortComparator at h1 h2 ⊢
  split_ifs at h1 h2 ⊢ <;>
    first
      | omega
      | (rw [strCompare_nonpos] at h1 h2 ⊢; exact le_trans h1 h2)
      | (rw [strCompare_nonpos] at h1 h2 ⊢; exact le_trans h2 h1)

/-- The comparator relation is total for every sort order. -/
theorem sortLe_total (ord : String) (a b : Post) : sortLe ord a b || sortLe ord b a := by
  simp only [sortLe, Bool.or_eq_true, decide_eq_true_eq]
  unfold sortComparator
  split_ifs <;>
    first
      | omega
      | (rw [strCompare_nonpos, strCompare_nonpos]; exact le_total _ _)

/-- Sorting with the comparator produces a list ordered by `comparator ≤ 0`. -/
theorem pairwise_mergeSort_sortLe (ord : String) (l : List Post) :
    (l.mergeSort (sortLe ord)).Pairwise (fun a b => sortComparator ord a b ≤ 0) := by
  have h := List.sorted_mergeSort (sortLe_trans ord) (sortLe_total ord) l
  exact h.imp (fun hab => by simpa [sortLe, decide_eq_true_eq] using hab)

/-- Membership after one `Set.add` step. -/
theorem mem_jsSetAdd (s : List String) (x y : String) :
    y ∈ jsSetAdd s x ↔ y ∈ s ∨ y = x := by
  unfold jsSetAdd
  split_ifs with h
  · simp only [List.contains, List.elem_iff] at h
    constructor
    · exact Or.inl
    · rintro (hy | rfl)
      · exact hy
      · exact h
  · simp

/-- Membership after adding a whole tag sequence to the set. -/
theorem mem_foldl_jsSetAdd (ts : List String) (acc : List String) (y : String) :
    y ∈ ts.foldl jsSetAdd acc ↔ y ∈ acc ∨ y ∈ ts := by
  induction ts generalizing acc with
  | nil => simp
  | cons t ts ih =>
    simp only [List.foldl_cons, ih, mem_jsSetAdd, List.mem_cons]
    tauto

/-- Membership in the tag set collected over a post collection. -/
theorem mem_collectTags (posts : List Post) (acc : List String) (y : String) :
    y ∈ posts.foldl (fun tags post => (post.data.tags.getD []).foldl jsSetAdd tags) acc ↔
      y ∈ acc ∨ ∃ p ∈ posts, y ∈ p.data.tags.getD [] := by
  induction posts generalizing acc with
  | nil => simp
  | cons p posts ih =>
    simp only [List.foldl_cons, ih, mem_foldl_jsSetAdd, List.mem_cons]
    constructor
    · rintro ((h | h) | ⟨q, hq, hy⟩)
      · exact Or.inl h
      · exact Or.inr ⟨p, Or.inl rfl, h⟩
      · exact Or.inr ⟨q, Or.inr hq, hy⟩
    · rintro (h | ⟨q, (rfl | hq), hy⟩)
      · exact Or.inl (Or.inl h)
      · exact Or.inl (Or.inr hy)
      · exact Or.inr ⟨q, hq, hy⟩

/-- `Set.add` keeps the materialised set duplicate-free. -/
theorem nodup_jsSetAdd (s : List String) (x : String) (h : s.Nodup) : (jsSetAdd s x).Nodup := by
  unfold jsSetAdd
  split_ifs with hc
  · exact h
  · simp only [List.contains, List.elem_iff] at hc
    simp [List.nodup_append, h, hc]

/-- Folding a tag sequence into a duplicate-free set keeps it duplicate-free. -/
theorem nodup_foldl_jsSetAdd (ts : List String) (acc : List String) (h : acc.Nodup) :
    (ts.foldl jsSetAdd acc).Nodup := by
  induction ts generalizing acc with
  | nil => exact h
  | cons t ts ih => exact ih _ (nodup_jsSetAdd _ _ h)

/-- The collected tag set over any post collection is duplicate-free. -/
theorem nodup_collectTags (posts : List Post) (acc : List String) (h : acc.Nodup) :
    (posts.foldl (fun tags post => (post.data.tags.getD []).foldl jsSetAdd tags) acc).Nodup := by
  induction posts generalizing acc with
  | nil => exact h
  | cons p posts ih => exact ih _ (nodup_foldl_jsSetAdd _ _ h)

/-- The ALL-match tag predicate only depends on the membership set of
`selectedTags`. -/
theorem matchesTags_congr (sel1 sel2 : List String) (h : ∀ x, x ∈ sel1 ↔ x ∈ sel2) (p : Post) :
    matchesTags sel1 p = matchesTags sel2 p := by
  unfold matchesTags
  have h0 : (sel1.length == 0) = (sel2.length == 0) := by
    rcases sel1 with _ | ⟨a, s⟩
    · rcases sel2 with _ | ⟨b, t⟩
      · rfl
      · exact absurd ((h b).mpr (List.mem_cons_self b t)) (List.not_mem_nil b)
    · rcases sel2 with _ | ⟨b, t⟩
      · exact absurd ((h a).mp (List.mem_cons_self a s)) (List.not_mem_nil a)
      · rfl
  have hall : sel1.all (fun tag => tagsInclude p.data.tags tag)
      = sel2.all (fun tag => tagsInclude p.data.tags tag) := by
    rw [Bool.eq_iff_iff]
    simp only [List.all_eq_true]
    constructor
    · intro ha x hx; exact ha x ((h x).mpr hx)
    · intro ha x hx; exact ha x ((h x).mp hx)
  rw [h0, hall]

/-- The whole result view only depends on the membership set of `selectedTags`. -/
theorem filteredPosts_congr (posts : List Post) (search : String) (sel1 sel2 : List String)
    (ord : String) (h : ∀ x, x ∈ sel1 ↔ x ∈ sel2) :
    filteredPosts posts search sel1 ord = filteredPosts posts search sel2 ord := by
  unfold filteredPosts
  congr 1
  apply List.filter_congr
  intro p _
  rw [matchesTags_congr sel1 sel2 h p]

/-- `List.contains` agrees with membership for strings. -/
theorem contains_iff_mem_str (s : List String) (x : String) : s.contains x = true ↔ x ∈ s := by
  simp [List.contains, List.elem_iff]

/-- Toggling an absent tag appends it. -/
theorem toggleTag_of_not_mem (t : String) (sel : List String) (h : t ∉ sel) :
    toggleTag t sel = sel ++ [t] := by
  unfold toggleTag
  rw [if_neg (fun hc => h ((contains_iff_mem_str sel t).mp hc))]

/-- Toggling a present tag filters out all its occurrences. -/
theorem toggleTag_of_mem (t : String) (sel : List String) (h : t ∈ sel) :
    toggleTag t sel = sel.filter (fun s => s != t) := by
  unfold toggleTag
  rw [if_pos ((contains_iff_mem_str sel t).mpr h)]

/-- Toggling the same tag twice restores the membership set of `selectedTags`. -/
theorem mem_toggleTag_toggleTag (t : String) (sel : List String) (x : String) :
    x ∈ toggleTag t (toggleTag t sel) ↔ x ∈ sel := by
  by_cases hc : t ∈ sel
  · have h1 : toggleTag t sel = sel.filter (fun s => s != t) := toggleTag_of_mem t sel hc
    have hnot : t ∉ sel.filter (fun s => s != t) := by
      intro hmem
      have := (List.mem_filter.mp hmem).2
      simp at this
    have h2 : toggleTag t (sel.filter (fun s => s != t))
        = sel.filter (fun s => s != t) ++ [t] := toggleTag_of_not_mem t _ hnot
    rw [h1, h2]
    simp only [List.mem_append, List.mem_filter, List.mem_singleton, bne_iff_ne, ne_eq]
    by_cases hx : x = t
    · subst hx; simp [hc]
    · simp [hx]
  · have h1 : toggleTag t sel = sel ++ [t] := toggleTag_of_not_mem t sel hc
    have hmem : t ∈ sel ++ [t] := by simp
    have h2 : toggleTag t (sel ++ [t]) = (sel ++ [t]).filter (fun s => s != t) :=
      toggleTag_of_mem t _ hmem
    have h3 : sel.filter (fun s => s != t) = sel := by
      apply List.filter_eq_self.mpr
      intro a ha
      simp only [bne_iff_ne, ne_eq, decide_eq_true_eq]
      rintro rfl
      exact hc ha
    rw [h1, h2, List.filter_append, h3]
    simp

/-- Toggling a tag does not change membership of any other tag. -/
theorem mem_toggleTag_of_ne (t x : String) (sel : List String) (hx : x ≠ t) :
    x ∈ toggleTag t sel ↔ x ∈ sel := by
  unfold toggleTag
  split_ifs with hc
  · simp [List.mem_filter, bne_iff_ne, hx]
  · simp [hx]

/-- Toggling preserves duplicate-freeness of `selectedTags`. -/
theorem toggleTag_nodup (t : String) (sel : List String) (h : sel.Nodup) :
    (toggleTag t sel).Nodup := by
  unfold toggleTag
  split_ifs with hc
  · exact h.filter _
  · have : t ∉ sel := fun hm => hc ((contains_iff_mem_str sel t).mpr hm)
    simp [List.nodup_append, h, this]

/-- Comparator branch for `"newest"`. -/
theorem sortComparator_newest (a b : Post) :
    sortComparator "newest" a b = b.data.pubDate - a.data.pubDate := rfl

/-- Comparator branch for `"oldest"`. -/
theorem sortComparator_oldest (a b : Post) :
    sortComparator "oldest" a b = a.data.pubDate - b.data.pubDate := rfl

/-- Comparator branch for `"a-z"`. -/
theorem sortComparator_az (a b : Post) :
    sortComparator "a-z" a b = strCompare a.data.title b.data.title := rfl

/-- Comparator branch for `"z-a"` (the catch-all `else`). -/
theorem sortComparator_za (a b : Post) :
    sortComparator "z-a" a b = strCompare b.data.title a.data.title := rfl

/-- Transitivity of the boolean string order used by the default tag sort. -/
theorem strLe_trans (a b c : String) (h1 : decide (a ≤ b) = true) (h2 : decide (b ≤ c) = true) :
    decide (a ≤ c) = true := by
  simp only [decide_eq_true_eq] at h1 h2 ⊢
  exact le_trans h1 h2

/-- Totality of the boolean string order used by the default tag sort. -/
theorem strLe_total (a b : String) : (decide (a ≤ b) || decide (b ≤ a)) = true := by
  simp only [Bool.or_eq_true, decide_eq_true_eq]
  exact le_total a b

/-! Claim theorems. -/

/-- C1, counterexample: the claim that an out-of-enum `setSortOrder` value is
rejected without mutating the query state is false on the code.  Calling
`setSortOrder` with the out-of-enum value `"bogus"` changes the state: the raw
value is stored in `sortOrder` with no validation and no error. -/
theorem setSortOrder_invalid_mutates_state :
    ("bogus" : String) ∉ (["newest", "oldest", "a-z", "z-a"] : List String) ∧
    setSortOrder "bogus" initState ≠ initState :=
  ⟨by decide, by decide⟩

/-- C1, amended: `setSortOrder` performs no validation and raises no error.
For every value `v` it stores `v` in `sortOrder` and leaves `search` and
`selectedTags` exactly as they were; a value outside the enum is treated by
the sort comparator exactly like `"z-a"` (the catch-all `else` branch). -/
theorem setSortOrder_no_validation (v : String) (q : QueryState) :
    (setSortOrder v q).search = q.search ∧
    (setSortOrder v q).selectedTags = q.selectedTags ∧
    (setSortOrder v q).sortOrder = v ∧
    (v ≠ "newest" → v ≠ "oldest" → v ≠ "a-z" →
      ∀ a b, sortComparator v a b = sortComparator "z-a" a b) := by
  refine ⟨rfl, rfl, rfl, ?_⟩
  intro h1 h2 h3 a b
  rw [sortComparator_za]
  unfold sortComparator
  rw [if_neg h1, if_neg h2, if_neg h3]

/-- C1, witness: the amended claim evaluated at the concrete invalid value
`"bogus"` and the sample posts. -/
theorem setSortOrder_no_validation_witness :
    (setSortOrder "bogus" initState).sortOrder = "bogus" ∧
    sortComparator "bogus" postA postB = sortComparator "z-a" postA postB :=
  ⟨(setSortOrder_no_validation "bogus" initState).2.2.1,
   (setSortOrder_no_validation "bogus" initState).2.2.2 (by decide) (by decide) (by decide)
     postA postB⟩

/-- C2: the two tag filter implementations disagree.  The ALL-match predicate
of BlogList.tsx and the ANY-match predicate of the unnamed copy are different
functions, and they differ on a concrete post with tags `["x"]` and the
non-empty selection `["x", "y"]`. -/
theorem tagFilter_policies_disagree :
    matchesTags ≠ matchesTagsAny ∧
    ∃ (sel : List String) (p : Post), sel ≠ [] ∧ matchesTags sel p ≠ matchesTagsAny sel p := by
  constructor
  · intro h
    have hx := congrFun (congrFun h ["x", "y"]) postA
    revert hx
    decide
  · exact ⟨["x", "y"], postA, by decide, by decide⟩

/-- C3: for every post collection, the tag vocabulary contains exactly the tag
strings occurring in some post's tag sequence (absent sequences contribute
nothing), has no duplicates, is sorted ascending in code-point order, and the
empty collection yields the empty vocabulary. -/
theorem allTags_spec (posts : List Post) :
    (∀ t, t ∈ allTags posts ↔ ∃ p ∈ posts, ∃ ts, p.data.tags = some ts ∧ t ∈ ts) ∧
    (allTags posts).Nodup ∧
    (allTags posts).Pairwise (fun a b => a ≤ b) ∧
    allTags ([] : List Post) = [] := by
  refine ⟨?_, ?_, ?_, ?_⟩
  · intro t
    unfold allTags
    rw [List.mem_mergeSort, mem_collectTags]
    simp only [List.not_mem_nil, false_or]
    constructor
    · rintro ⟨p, hp, hy⟩
      rcases htags : p.data.tags with _ | ts
      · rw [htags] at hy; simp at hy
      · rw [htags] at hy
        exact ⟨p, hp, ts, htags, by simpa using hy⟩
    · rintro ⟨p, hp, ts, hts, hy⟩
      exact ⟨p, hp, by simp [hts, hy]⟩
  · unfold allTags
    rw [List.Perm.nodup_iff (List.mergeSort_perm _ _)]
    exact nodup_collectTags posts [] List.nodup_nil
  · unfold allTags
    have h := List.sorted_mergeSort strLe_trans strLe_total
      (posts.foldl (fun tags post => (post.data.tags.getD []).foldl jsSetAdd tags) [])
    exact h.imp (fun hab => by simpa using hab)
  · simp [allTags]

/-- C4: the search predicate holds iff the lowercase-folded query is a
contiguous substring of the lowercase-folded title or of the lowercase-folded
description (no trimming anywhere); the empty query matches every post. -/
theorem matchesSearch_spec (q : String) (p : Post) :
    (matchesSearch q p = true ↔
      ((jsToLower q).data <:+: (jsToLower p.data.title).data ∨
       (jsToLower q).data <:+: (jsToLower p.data.description).data)) ∧
    matchesSearch "" p = true := by
  constructor
  · unfold matchesSearch jsIncludes
    rw [Bool.or_eq_true, containsSub_iff, containsSub_iff]
  · unfold matchesSearch jsIncludes
    have h : (jsToLower "").data = [] := rfl
    rw [h, containsSub_nil, Bool.true_or]

/-- C5: a post of the input collection appears in `getResults` iff the search
predicate and the tag filter predicate both hold for it, and every post of the
result comes from the input collection. -/
theorem getResults_spec (posts : List Post) (q : QueryState) (p : Post) (hp : p ∈ posts) :
    (p ∈ getResults posts q ↔
      matchesSearch q.search p = true ∧ matchesTags q.selectedTags p = true) ∧
    ∀ r, r ∈ getResults posts q → r ∈ posts := by
  constructor
  · unfold getResults filteredPosts
    rw [List.mem_mergeSort, List.mem_filter]
    simp [hp, Bool.and_eq_true]
  · intro r hr
    unfold getResults filteredPosts at hr
    rw [List.mem_mergeSort, List.mem_filter] at hr
    exact hr.1

/-- C5, witness: the combined-filter membership condition evaluated on a
concrete one-post collection in the initial state. -/
theorem getResults_spec_witness :
    postA ∈ getResults [postA] initState ↔
      matchesSearch initState.search postA = true ∧
      matchesTags initState.selectedTags postA = true :=
  (getResults_spec [postA] initState postA (by decide)).1

/-- C6: in both engine copies, the result sequence is pairwise ordered as the
active sort order prescribes: `"newest"` descending by `pubDate`, `"oldest"`
ascending by `pubDate`, `"a-z"` ascending by title under the modelled
`localeCompare`, `"z-a"` descending by title under the modelled
`localeCompare`. -/
theorem comparator_orders_results (posts : List Post) (search : String) (sel : List String) :
    (filteredPosts posts search sel "newest").Pairwise
      (fun a b => b.data.pubDate ≤ a.data.pubDate) ∧
    (filteredPosts posts search sel "oldest").Pairwise
      (fun a b => a.data.pubDate ≤ b.data.pubDate) ∧
    (filteredPosts posts search sel "a-z").Pairwise
      (fun a b => strCompare a.data.title b.data.title ≤ 0) ∧
    (filteredPosts posts search sel "z-a").Pairwise
      (fun a b => strCompare b.data.title a.data.title ≤ 0) ∧
    (filteredPostsAny posts search sel "newest").Pairwise
      (fun a b => b.data.pubDate ≤ a.data.pubDate) ∧
    (filteredPostsAny posts search sel "oldest").Pairwise
      (fun a b => a.data.pubDate ≤ b.data.pubDate) ∧
    (filteredPostsAny posts search sel "a-z").Pairwise
      (fun a b => strCompare a.data.title b.data.title ≤ 0) ∧
    (filteredPostsAny posts search sel "z-a").Pairwise
      (fun a b => strCompare b.data.title a.data.title ≤ 0) := by
  unfold filteredPosts filteredPostsAny
  refine ⟨(pairwise_mergeSort_sortLe _ _).imp (fun h => by rw [sortComparator_newest] at h; omega),
          (pairwise_mergeSort_sortLe _ _).imp (fun h => by rw [sortComparator_oldest] at h; omega),
          (pairwise_mergeSort_sortLe _ _).imp (fun h => by rw [sortComparator_az] at h; exact h),
          (pairwise_mergeSort_sortLe _ _).imp (fun h => by rw [sortComparator_za] at h; exact h),
          (pairwise_mergeSort_sortLe _ _).imp (fun h => by rw [sortComparator_newest] at h; omega),
          (pairwise_mergeSort_sortLe _ _).imp (fun h => by rw [sortComparator_oldest] at h; omega),
          (pairwise_mergeSort_sortLe _ _).imp (fun h => by rw [sortComparator_az] at h; exact h),
          (pairwise_mergeSort_sortLe _ _).imp (fun h => by rw [sortComparator_za] at h; exact h)⟩

/-- C7: toggling the same tag twice restores the membership set of
`selectedTags` and restores `getResults` exactly; a single toggle appends an
absent tag, removes a present tag, and leaves every other tag's membership
unchanged. -/
theorem toggleTag_roundtrip (posts : List Post) (search : String) (ord : String)
    (sel : List String) (t : String) :
    (∀ x, x ∈ toggleTag t (toggleTag t sel) ↔ x ∈ sel) ∧
    filteredPosts posts search (toggleTag t (toggleTag t sel)) ord
      = filteredPosts posts search sel ord ∧
    (t ∉ sel → toggleTag t sel = sel ++ [t]) ∧
    (t ∈ sel → toggleTag t sel = sel.filter (fun s => s != t)) ∧
    (∀ x, x ≠ t → (x ∈ toggleTag t sel ↔ x ∈ sel)) :=
  ⟨mem_toggleTag_toggleTag t sel,
   filteredPosts_congr posts search _ sel ord (mem_toggleTag_toggleTag t sel),
   toggleTag_of_not_mem t sel,
   toggleTag_of_mem t sel,
   fun x hx => mem_toggleTag_of_ne t x sel hx⟩

/-- C7, witness: the toggle equations evaluated on the concrete selection
`["a"]`, once for an absent tag and once for a present tag. -/
theorem toggleTag_roundtrip_witness :
    toggleTag "b" ["a"] = ["a"] ++ ["b"] ∧
    toggleTag "a" ["a"] = List.filter (fun s => s != "a") ["a"] :=
  ⟨(toggleTag_roundtrip [] "" "newest" ["a"] "b").2.2.1 (by decide),
   (toggleTag_roundtrip [] "" "newest" ["a"] "a").2.2.2.1 (by decide)⟩

/-- C8: a post whose tags field is absent satisfies the tag filter iff the
selection is empty, under both the ALL-match and the ANY-match policy. -/
theorem matchesTags_absent_tags (sel : List String) (p : Post) (h : p.data.tags = none) :
    (matchesTags sel p = true ↔ sel = []) ∧ (matchesTagsAny sel p = true ↔ sel = []) := by
  unfold matchesTags matchesTagsAny
  rw [h]
  rcases sel with _ | ⟨a, s⟩
  · simp [tagsInclude]
  · simp [tagsInclude]

/-- C8, witness: both policies evaluated at a concrete tagless post and the
non-empty selection `["x"]`. -/
theorem matchesTags_absent_tags_witness :
    (matchesTags ["x"] postNoTags = true ↔ ["x"] = ([] : List String)) ∧
    (matchesTagsAny ["x"] postNoTags = true ↔ ["x"] = ([] : List String)) :=
  matchesTags_absent_tags ["x"] postNoTags rfl

/-- C9: the sort is stable.  Two posts that are tied under the active sort key
and pass the filter in a given relative order keep that relative order in the
result; determinism of repeated evaluation is definitional since the whole
query is a pure function of its inputs. -/
theorem sort_stability (posts : List Post) (search : String) (sel : List String) (ord : String)
    (a b : Post) (hab : sortComparator ord a b ≤ 0) (_hba : sortComparator ord b a ≤ 0)
    (hsub : List.Sublist [a, b]
      (posts.filter fun post => matchesSearch search post && matchesTags sel post)) :
    List.Sublist [a, b] (filteredPosts posts search sel ord) := by
  unfold filteredPosts
  have hpw : List.Pairwise (fun x y => sortLe ord x y = true) [a, b] := by
    simp [List.pairwise_cons, sortLe, decide_eq_true_eq, hab]
  exact List.sublist_mergeSort (sortLe_trans ord) (sortLe_total ord) hpw hsub

/-- C9, witness: two sample posts with identical timestamps keep their input
order under the `"newest"` sort. -/
theorem sort_stability_witness :
    List.Sublist [postA, postB] (filteredPosts [postA, postB] "" [] "newest") :=
  sort_stability [postA, postB] "" [] "newest" postA postB (by decide) (by decide) (by decide)

/-- C10: `selectedTags` starts as the empty list and toggling preserves
duplicate-freeness, so the selection never contains duplicates. -/
theorem selectedTags_nodup_invariant (sel : List String) (t : String) (h : sel.Nodup) :
    initState.selectedTags.Nodup ∧ (toggleTag t sel).Nodup :=
  ⟨List.nodup_nil, toggleTag_nodup t sel h⟩

/-- C10, witness: the invariant evaluated at the concrete duplicate-free
selection `["a"]`. -/
theorem selectedTags_nodup_invariant_witness :
    initState.selectedTags.Nodup ∧ (toggleTag "b" ["a"]).Nodup :=
  selectedTags_nodup_invariant ["a"] "b" (by decide)
